import Mathlib

/-!
# envdb node registry: store operations and start-up reconciliation

A shallow embedding of `envdb/node_database.go`.

The Go file talks to a relational backend through the package-level xorm
engine `x`.  Here the table `node_db` is a list of rows held in an `Engine`
value that every operation receives and returns, and whatever the backend and
the clock may answer is read from a `Backend` oracle, so that every failure
path of the Go code can be exercised.
-/

namespace Envdb

/-- Go `error` values seen by this file: an error handed up by the backend
(identified by a code), or one built with `errors.New` from a message. -/
inductive GoError where
  | backend (code : Nat)
  | text (msg : String)
deriving DecidableEq, Repr

/-- The Go struct `NodeDb`, one row of the table.  Field defaults are Go's zero
values, so `{ NodeId := s }` is the literal `&NodeDb{NodeId: s}`.  The two
`time.Time` columns are clock readings, with `0` the zero time. -/
structure NodeDb where
  Id : Int := 0
  NodeId : String := ""
  EnvdbVersion : String := ""
  Name : String := ""
  Ip : String := ""
  Hostname : String := ""
  Os : String := ""
  Online : Bool := false
  OsQuery : Bool := false
  OsQueryVersion : String := ""
  OsQueryConfigPath : String := ""
  PendingDelete : Bool := false
  Created : Nat := 0
  Updated : Nat := 0
deriving DecidableEq, Repr

/-- Modelled from the spec: the struct `NodeData` (the announcement) is declared
outside `node_database.go`; its fields are the ones `NodeUpdateOrCreate` reads,
with `Id` the node's self-reported identity string. -/
structure NodeData where
  Id : String := ""
  Name : String := ""
  EnvdbVersion : String := ""
  Ip : String := ""
  Hostname : String := ""
  Os : String := ""
  Online : Bool := false
  OsQuery : Bool := false
  OsQueryVersion : String := ""
  OsQueryConfigPath : String := ""
  PendingDelete : Bool := false
deriving DecidableEq, Repr

/-- State behind the package-level engine `x`: the rows of `node_db` in the
backend's scan order, the next value of the auto-increment key, and how many
sessions `x.NewSession()` has opened so far. -/
structure Engine where
  rows : List NodeDb
  nextId : Int
  sessions : Nat
deriving DecidableEq, Repr

/-- What the backend answers during one session: for `Begin`, for the one
statement run in it (`Update` or `Insert`) and for `Commit`, `some c` is a
failure with code `c`; `now` is the clock reading used for the auto-time
columns. -/
structure Session where
  beginErr : Option Nat
  execErr : Option Nat
  commitErr : Option Nat
  now : Nat

/-- The environment of a run: the answers given in the `k`-th session, and
whether the engine-level `x.Find` and `x.Get` fail when issued after `k`
sessions have been opened. -/
structure Backend where
  session : Nat → Session
  findErr : Nat → Option Nat
  getErr : Nat → Option Nat

/-- The first failure of a session in program order, if any. -/
def Session.failure (s : Session) : Option Nat :=
  match s.beginErr with
  | some c => some c
  | none =>
    match s.execErr with
    | some c => some c
    | none => s.commitErr

/-- The primary key is unique and below the auto-increment counter: what the
backend maintains for the `Id` column. -/
def Engine.WF (x : Engine) : Prop :=
  (x.rows.map (fun r => r.Id)).Nodup ∧ ∀ r ∈ x.rows, r.Id < x.nextId

instance (x : Engine) : Decidable x.WF := by
  unfold Engine.WF; exact inferInstance

/-- The condition xorm builds from a bean for `Get` ("the bean's non-empty
fields are the conditions"): every non-zero field of the bean must be equal in
the row; a zero-valued field (`0`, `""`, the zero time) puts no condition, and
`bool` fields are never used as conditions. -/
def beanCond (bean r : NodeDb) : Bool :=
  (bean.Id == 0 || r.Id == bean.Id) &&
  (bean.NodeId == "" || r.NodeId == bean.NodeId) &&
  (bean.EnvdbVersion == "" || r.EnvdbVersion == bean.EnvdbVersion) &&
  (bean.Name == "" || r.Name == bean.Name) &&
  (bean.Ip == "" || r.Ip == bean.Ip) &&
  (bean.Hostname == "" || r.Hostname == bean.Hostname) &&
  (bean.Os == "" || r.Os == bean.Os) &&
  (bean.OsQueryVersion == "" || r.OsQueryVersion == bean.OsQueryVersion) &&
  (bean.OsQueryConfigPath == "" || r.OsQueryConfigPath == bean.OsQueryConfigPath) &&
  (bean.Created == 0 || r.Created == bean.Created) &&
  (bean.Updated == 0 || r.Updated == bean.Updated)

/-- xorm `x.Get(bean)`: `SELECT ... WHERE <beanCond> LIMIT 1`.  Returns the bean
(filled from the row when one is found), `has`, and the error. -/
def Get (env : Backend) (bean : NodeDb) (x : Engine) : NodeDb × Bool × Option GoError :=
  match env.getErr x.sessions with
  | some c => (bean, false, some (GoError.backend c))
  | none =>
    match x.rows.find? (beanCond bean) with
    | some r => (r, true, none)
    | none => (bean, false, none)

/-- xorm `sess.Id(id).AllCols().Update(bean)`: every row whose key is `id` gets
all columns of the bean, except the key and the `CREATED` column; the `UPDATED`
column is set to the clock. -/
def execUpdate (rows : List NodeDb) (id : Int) (bean : NodeDb) (now : Nat) : List NodeDb :=
  rows.map fun r =>
    if r.Id = id then { bean with Id := r.Id, Created := r.Created, Updated := now } else r

/-- `AllNodes`: `x.Find(&nodes)`, the full table scan. -/
def AllNodes (env : Backend) (x : Engine) : List NodeDb × Option GoError :=
  match env.findErr x.sessions with
  | some c => ([], some (GoError.backend c))
  | none => (x.rows, none)

/-- `(n *NodeDb) Update()`: open a session, begin, overwrite the row keyed
`n.Id`, commit.  A failed step returns its error and nothing is written. -/
def NodeDb.Update (env : Backend) (n : NodeDb) (x : Engine) : Engine × Option GoError :=
  let s := env.session x.sessions
  let x1 : Engine := { x with sessions := x.sessions + 1 }
  match s.beginErr with
  | some c => (x1, some (GoError.backend c))
  | none =>
    match s.execErr with
    | some c => (x1, some (GoError.backend c))
    | none =>
      match s.commitErr with
      | some c => (x1, some (GoError.backend c))
      | none => ({ x1 with rows := execUpdate x1.rows n.Id n s.now }, none)

/-- The `for _, node := range nodes` loop of `NodeUpdateOnlineStatus`. -/
def updateLoop (env : Backend) : List NodeDb → Engine → Engine × Option GoError
  | [], x => (x, none)
  | node :: rest, x =>
    if node.Online then
      match NodeDb.Update env { node with Online := false } x with
      | (x1, some e) => (x1, some e)
      | (x1, none) => updateLoop env rest x1
    else updateLoop env rest x

/-- `NodeUpdateOnlineStatus`: scan the table, and update every record whose
`Online` is set after clearing it, returning at the first error. -/
def NodeUpdateOnlineStatus (env : Backend) (x : Engine) : Engine × Option GoError :=
  match AllNodes env x with
  | (_, some e) => (x, some e)
  | (nodes, none) => updateLoop env nodes x

/-- `GetNodeByNodeId`: `x.Get` on the bean `&NodeDb{NodeId: nodeId}`. -/
def GetNodeByNodeId (env : Backend) (nodeId : String) (x : Engine) :
    Option NodeDb × Option GoError :=
  match Get env { NodeId := nodeId } x with
  | (_, _, some e) => (none, some e)
  | (_, false, none) => (none, some (GoError.text "Node not found"))
  | (node, true, none) => (some node, none)

/-- `NodeUpdateOrCreate`: look the node up by its identity; overwrite the found
record, or insert a new one when the lookup hands back no record. -/
def NodeUpdateOrCreate (env : Backend) (node : NodeData) (x : Engine) :
    Engine × Option NodeDb × Option GoError :=
  let s := env.session x.sessions
  let x1 : Engine := { x with sessions := x.sessions + 1 }
  match s.beginErr with
  | some c => (x1, none, some (GoError.backend c))
  | none =>
    match GetNodeByNodeId env node.Id x1 with
    | (some found, _) =>
      let find : NodeDb :=
        { found with
          Name := node.Name
          EnvdbVersion := node.EnvdbVersion
          Ip := node.Ip
          Hostname := node.Hostname
          Os := node.Os
          OsQuery := node.OsQuery
          OsQueryVersion := node.OsQueryVersion
          OsQueryConfigPath := node.OsQueryConfigPath
          Online := node.Online
          PendingDelete := node.PendingDelete }
      match s.execErr with
      | some c => (x1, some find, some (GoError.backend c))
      | none =>
        match s.commitErr with
        | some c => (x1, none, some (GoError.backend c))
        | none =>
          ({ x1 with rows := execUpdate x1.rows find.Id find s.now },
            some { find with Updated := s.now }, none)
    | (none, _) =>
      let a : NodeDb :=
        { NodeId := node.Id
          Name := node.Name
          EnvdbVersion := node.EnvdbVersion
          Ip := node.Ip
          Hostname := node.Hostname
          Os := node.Os
          Online := node.Online
          OsQuery := node.OsQuery
          OsQueryVersion := node.OsQueryVersion
          OsQueryConfigPath := node.OsQueryConfigPath
          PendingDelete := false }
      match s.execErr with
      | some c => (x1, none, some (GoError.backend c))
      | none =>
        match s.commitErr with
        | some c => (x1, none, some (GoError.backend c))
        | none =>
          let stored : NodeDb := { a with Id := x1.nextId, Created := s.now, Updated := s.now }
          ({ x1 with rows := x1.rows ++ [stored], nextId := x1.nextId + 1 }, some stored, none)

/-- A backend on which nothing ever fails, with the clock at `t`. -/
def okBackend (t : Nat) : Backend :=
  { session := fun _ => { beginErr := none, execErr := none, commitErr := none, now := t }
    findErr := fun _ => none
    getErr := fun _ => none }

/-- A backend that is healthy except in session `k`, whose statement fails with
code `c`. -/
def failAt (k c t : Nat) : Backend :=
  { session := fun j =>
      { beginErr := none, execErr := if j = k then some c else none, commitErr := none, now := t }
    findErr := fun _ => none
    getErr := fun _ => none }

/-- No call to the backend ever fails. -/
def Backend.NonFailing (env : Backend) : Prop :=
  (∀ k, (env.session k).failure = none) ∧ (∀ k, env.findErr k = none) ∧
    (∀ k, env.getErr k = none)

/-- A backend whose `x.Get` fails with code `c` when issued after `k` sessions
have been opened, and on which every other call succeeds. -/
def lookupDownAt (k c t : Nat) : Backend :=
  { session := fun _ => { beginErr := none, execErr := none, commitErr := none, now := t }
    findErr := fun _ => none
    getErr := fun j => if j = k then some c else none }

/-- The stored records whose `NodeId` is `nodeId`. -/
def recordsOf (x : Engine) (nodeId : String) : List NodeDb :=
  x.rows.filter (fun r => r.NodeId == nodeId)

/-- The record `r` after the found-branch assignments of `NodeUpdateOrCreate`
and the auto-time stamp of the update. -/
def overwrite (r : NodeDb) (node : NodeData) (now : Nat) : NodeDb :=
  { r with
    Name := node.Name
    EnvdbVersion := node.EnvdbVersion
    Ip := node.Ip
    Hostname := node.Hostname
    Os := node.Os
    OsQuery := node.OsQuery
    OsQueryVersion := node.OsQueryVersion
    OsQueryConfigPath := node.OsQueryConfigPath
    Online := node.Online
    PendingDelete := node.PendingDelete
    Updated := now }

/-- The record inserted by the create-branch of `NodeUpdateOrCreate`, with the
key and the time stamps the insert gives it. -/
def created (node : NodeData) (id : Int) (now : Nat) : NodeDb :=
  { Id := id
    NodeId := node.Id
    Name := node.Name
    EnvdbVersion := node.EnvdbVersion
    Ip := node.Ip
    Hostname := node.Hostname
    Os := node.Os
    Online := node.Online
    OsQuery := node.OsQuery
    OsQueryVersion := node.OsQueryVersion
    OsQueryConfigPath := node.OsQueryConfigPath
    PendingDelete := false
    Created := now
    Updated := now }

/-- The record shows the announcement's identity, descriptive fields, `Online`
flag and query-engine fields (every announced field but `PendingDelete`). -/
def carries (r : NodeDb) (node : NodeData) : Prop :=
  r.NodeId = node.Id ∧ r.Name = node.Name ∧ r.EnvdbVersion = node.EnvdbVersion ∧
    r.Ip = node.Ip ∧ r.Hostname = node.Hostname ∧ r.Os = node.Os ∧
    r.Online = node.Online ∧ r.OsQuery = node.OsQuery ∧
    r.OsQueryVersion = node.OsQueryVersion ∧ r.OsQueryConfigPath = node.OsQueryConfigPath

/-- A run of `NodeUpdateOrCreate` calls, one per announcement, in order. -/
def upsertAll (env : Backend) : List NodeData → Engine → Engine
  | [], x => x
  | a :: rest, x => upsertAll env rest (NodeUpdateOrCreate env a x).1

/-- How the start-up sweep leaves one record: an offline record is untouched,
an online one has lost `Online` and got a new `Updated` stamp. -/
def Swept (a b : NodeDb) : Prop :=
  (a.Online = false ∧ b = a) ∨
  (a.Online = true ∧ ∃ t : Nat, b = { a with Online := false, Updated := t })

/-! ## The backend primitives -/

theorem execUpdate_absent (rows : List NodeDb) (id : Int) (bean : NodeDb) (now : Nat)
    (h : ∀ r ∈ rows, r.Id ≠ id) : execUpdate rows id bean now = rows := by
  unfold execUpdate
  conv_rhs => rw [← List.map_id rows]
  apply List.map_congr_left
  intro r hr
  simp [h r hr]

theorem execUpdate_append (l₁ l₂ : List NodeDb) (id : Int) (bean : NodeDb) (now : Nat) :
    execUpdate (l₁ ++ l₂) id bean now
      = execUpdate l₁ id bean now ++ execUpdate l₂ id bean now := by
  simp [execUpdate]

/-- With a unique key, updating by the key of a stored row rewrites that row
and no other. -/
theorem execUpdate_mid (d t : List NodeDb) (n bean : NodeDb) (now : Nat)
    (hnd : ((d ++ n :: t).map (fun r => r.Id)).Nodup) :
    execUpdate (d ++ n :: t) n.Id bean now
      = d ++ { bean with Id := n.Id, Created := n.Created, Updated := now } :: t := by
  have hd : ∀ r ∈ d, r.Id ≠ n.Id := by
    intro r hr heq
    rw [List.map_append, List.map_cons] at hnd
    have hdis := (List.nodup_append.mp hnd).2.2
    exact hdis (List.mem_map.mpr ⟨r, hr, rfl⟩) (by simp [heq])
  have ht : ∀ r ∈ t, r.Id ≠ n.Id := by
    intro r hr heq
    rw [List.map_append, List.map_cons] at hnd
    have hcons := (List.nodup_append.mp hnd).2.1
    have hnot := (List.nodup_cons.mp hcons).1
    exact hnot (List.mem_map.mpr ⟨r, hr, heq⟩)
  rw [execUpdate_append, execUpdate_absent d _ _ _ hd]
  have : execUpdate (n :: t) n.Id bean now
      = { bean with Id := n.Id, Created := n.Created, Updated := now }
          :: execUpdate t n.Id bean now := by
    simp [execUpdate]
  rw [this, execUpdate_absent t _ _ _ ht]

/-! ## One `Update` call -/

theorem Update_sessions (env : Backend) (n : NodeDb) (x : Engine) :
    (NodeDb.Update env n x).1.sessions = x.sessions + 1 := by
  unfold NodeDb.Update
  cases env.session x.sessions with
  | mk b e c t => cases b <;> cases e <;> cases c <;> rfl

theorem Update_ok (env : Backend) (n : NodeDb) (x : Engine)
    (h : (env.session x.sessions).failure = none) :
    NodeDb.Update env n x
      = ({ rows := execUpdate x.rows n.Id n (env.session x.sessions).now,
           nextId := x.nextId, sessions := x.sessions + 1 }, none) := by
  unfold NodeDb.Update
  revert h
  cases env.session x.sessions with
  | mk b e c t => cases b <;> cases e <;> cases c <;> simp [Session.failure]

theorem Update_fail (env : Backend) (n : NodeDb) (x : Engine) (c : Nat)
    (h : (env.session x.sessions).failure = some c) :
    NodeDb.Update env n x
      = ({ rows := x.rows, nextId := x.nextId, sessions := x.sessions + 1 },
          some (GoError.backend c)) := by
  unfold NodeDb.Update
  revert h
  cases env.session x.sessions with
  | mk b e c t => cases b <;> cases e <;> cases c <;> simp [Session.failure]

theorem Update_none (env : Backend) (n : NodeDb) (x : Engine)
    (h : (NodeDb.Update env n x).2 = none) :
    (env.session x.sessions).failure = none := by
  cases hf : (env.session x.sessions).failure with
  | none => rfl
  | some c => rw [Update_fail env n x c hf] at h; simp at h

/-! ## The reconciliation loop -/

/-- While the sessions it opens succeed, the loop rewrites the records it walks
over in place and goes on with the rest of the scan. -/
theorem updateLoop_walk (env : Backend) (tail : List NodeDb) :
    ∀ (pre d : List NodeDb) (x : Engine),
      x.rows = d ++ (pre ++ tail) →
      (x.rows.map (fun r => r.Id)).Nodup →
      (∀ j, j < (pre.filter (fun r => r.Online)).length →
        (env.session (x.sessions + j)).failure = none) →
      ∃ pre', List.Forall₂ Swept pre pre' ∧
        updateLoop env (pre ++ tail) x
          = updateLoop env tail
              { rows := d ++ (pre' ++ tail), nextId := x.nextId,
                sessions := x.sessions + (pre.filter (fun r => r.Online)).length } := by
  intro pre
  induction pre with
  | nil =>
    intro d x hrows _ _
    refine ⟨[], List.Forall₂.nil, ?_⟩
    cases x with
    | mk rows nextId sessions =>
      simp only [List.nil_append] at hrows ⊢
      simp only [List.filter_nil, List.length_nil, Nat.add_zero]
      rw [hrows]
  | cons n pre ih =>
    intro d x hrows hnd hok
    by_cases hon : n.Online = true
    · have h0 : (env.session x.sessions).failure = none := by
        have := hok 0 (by simp [List.filter_cons, hon])
        simpa using this
      have hrows' : x.rows = d ++ n :: (pre ++ tail) := by simpa using hrows
      obtain ⟨n', hn'⟩ : ∃ n' : NodeDb,
          n' = { n with Online := false, Updated := (env.session x.sessions).now } := ⟨_, rfl⟩
      have hmid : execUpdate x.rows n.Id { n with Online := false }
          (env.session x.sessions).now = d ++ n' :: (pre ++ tail) := by
        rw [hrows', hn']
        rw [hrows'] at hnd
        exact execUpdate_mid d (pre ++ tail) n _ _ hnd
      have hupd : NodeDb.Update env { n with Online := false } x
          = ({ rows := d ++ n' :: (pre ++ tail), nextId := x.nextId,
               sessions := x.sessions + 1 }, none) := by
        rw [Update_ok env { n with Online := false } x h0, ← hmid]
      have hid' : n'.Id = n.Id := by rw [hn']
      have hnd' : ((d ++ n' :: (pre ++ tail)).map (fun r => r.Id)).Nodup := by
        have hids : (d ++ n' :: (pre ++ tail)).map (fun r => r.Id)
            = x.rows.map (fun r => r.Id) := by
          rw [hrows']; simp [hid']
        rw [hids]; exact hnd
      have hok' : ∀ j, j < (pre.filter (fun r => r.Online)).length →
          (env.session (x.sessions + 1 + j)).failure = none := by
        intro j hj
        have := hok (j + 1) (by simp [List.filter_cons, hon]; exact hj)
        simpa [Nat.add_assoc, Nat.add_comm 1 j] using this
      obtain ⟨pre', hsw, hloop⟩ := ih (d ++ [n'])
        { rows := d ++ n' :: (pre ++ tail), nextId := x.nextId, sessions := x.sessions + 1 }
        (by simp) hnd' hok'
      refine ⟨n' :: pre', List.Forall₂.cons (Or.inr ⟨hon, _, hn'⟩) hsw, ?_⟩
      show updateLoop env (n :: (pre ++ tail)) x = _
      rw [updateLoop]
      simp only [hon, if_true]
      rw [hupd]
      simp only
      rw [hloop]
      simp [List.filter_cons, hon, Nat.add_assoc, Nat.add_comm 1]
    · have hoff : n.Online = false := by simpa using hon
      obtain ⟨pre', hsw, hloop⟩ := ih (d ++ [n]) x (by simpa using hrows) hnd
        (by
          intro j hj
          exact hok j (by simpa [List.filter_cons, hoff] using hj))
      refine ⟨n :: pre', List.Forall₂.cons (Or.inl ⟨hoff, rfl⟩) hsw, ?_⟩
      show updateLoop env (n :: (pre ++ tail)) x = _
      rw [updateLoop]
      simp only [hoff, Bool.false_eq_true, if_false]
      rw [hloop]
      simp [List.filter_cons, hoff]

/-- A loop that returns no error has seen every session it opened succeed. -/
theorem updateLoop_none (env : Backend) :
    ∀ (nodes : List NodeDb) (x : Engine),
      (updateLoop env nodes x).2 = none →
      ∀ j, j < (nodes.filter (fun r => r.Online)).length →
        (env.session (x.sessions + j)).failure = none := by
  intro nodes
  induction nodes with
  | nil => intro x _ j hj; simp at hj
  | cons n rest ih =>
    intro x h j hj
    rw [updateLoop] at h
    by_cases hon : n.Online = true
    · simp only [hon, if_true] at h
      have hs := Update_sessions env { n with Online := false } x
      cases hu : NodeDb.Update env { n with Online := false } x with
      | mk x1 e =>
        rw [hu] at h hs
        cases e with
        | some e => simp at h
        | none =>
          simp only at h hs
          have h0 := Update_none env { n with Online := false } x (by rw [hu])
          cases j with
          | zero => simpa using h0
          | succ j =>
            have := ih x1 h j (by simpa [List.filter_cons, hon] using hj)
            rw [hs] at this
            simpa [Nat.add_assoc, Nat.add_comm 1 j] using this
    · have hoff : n.Online = false := by simpa using hon
      simp only [hoff, Bool.false_eq_true, if_false] at h
      exact ih x h j (by simpa [List.filter_cons, hoff] using hj)

theorem okBackend_nonFailing (t : Nat) : (okBackend t).NonFailing :=
  ⟨fun _ => rfl, fun _ => rfl, fun _ => rfl⟩

theorem Swept.fields {a b : NodeDb} (h : Swept a b) :
    b.Online = false ∧ b.Id = a.Id ∧ b.NodeId = a.NodeId ∧ b.Name = a.Name ∧
      b.EnvdbVersion = a.EnvdbVersion ∧ b.Ip = a.Ip ∧ b.Hostname = a.Hostname ∧
      b.Os = a.Os ∧ b.OsQuery = a.OsQuery ∧ b.OsQueryVersion = a.OsQueryVersion ∧
      b.OsQueryConfigPath = a.OsQueryConfigPath ∧ b.PendingDelete = a.PendingDelete := by
  rcases h with ⟨hoff, rfl⟩ | ⟨_, t, rfl⟩
  · simp [hoff]
  · simp

/-- The full frame of the sweep on one record: nothing but `Online` and
`Updated` can differ. -/
theorem Swept.frame {a b : NodeDb} (h : Swept a b) :
    Swept a b ∧ b = { a with Online := false, Updated := b.Updated } ∧
      b.Id = a.Id ∧ b.NodeId = a.NodeId ∧ b.Name = a.Name ∧
      b.EnvdbVersion = a.EnvdbVersion ∧ b.Ip = a.Ip ∧ b.Hostname = a.Hostname ∧
      b.Os = a.Os ∧ b.OsQuery = a.OsQuery ∧ b.OsQueryVersion = a.OsQueryVersion ∧
      b.OsQueryConfigPath = a.OsQueryConfigPath ∧ b.PendingDelete = a.PendingDelete ∧
      b.Created = a.Created := by
  refine ⟨h, ?_⟩
  rcases h with ⟨hoff, rfl⟩ | ⟨_, t, rfl⟩
  · refine ⟨?_, rfl, rfl, rfl, rfl, rfl, rfl, rfl, rfl, rfl, rfl, rfl, rfl⟩
    cases b
    simp only at hoff
    subst hoff
    rfl
  · exact ⟨rfl, rfl, rfl, rfl, rfl, rfl, rfl, rfl, rfl, rfl, rfl, rfl, rfl⟩

theorem swept_all_offline :
    ∀ {l l' : List NodeDb}, List.Forall₂ Swept l l' → ∀ b ∈ l', b.Online = false := by
  intro l l' h
  induction h with
  | nil => intro b hb; simp at hb
  | cons hab _ ih =>
    intro b hb
    rcases List.mem_cons.mp hb with rfl | hb
    · exact (Swept.fields hab).1
    · exact ih b hb

/-- A scan in which nothing is online issues no `Update`. -/
theorem updateLoop_offline (env : Backend) :
    ∀ (nodes : List NodeDb) (x : Engine), (∀ r ∈ nodes, r.Online = false) →
      updateLoop env nodes x = (x, none) := by
  intro nodes
  induction nodes with
  | nil => intro x _; rfl
  | cons n rest ih =>
    intro x h
    rw [updateLoop]
    have hn : n.Online = false := h n (List.mem_cons_self _ _)
    simp only [hn, Bool.false_eq_true, if_false]
    exact ih x (fun r hr => h r (List.mem_cons_of_mem _ hr))

/-- The whole scan, when every session it opens succeeds. -/
theorem updateLoop_all (env : Backend) (x : Engine)
    (hnd : (x.rows.map (fun r => r.Id)).Nodup)
    (hok : ∀ j, j < (x.rows.filter (fun r => r.Online)).length →
      (env.session (x.sessions + j)).failure = none) :
    ∃ rows', List.Forall₂ Swept x.rows rows' ∧
      updateLoop env x.rows x
        = ({ rows := rows', nextId := x.nextId,
             sessions := x.sessions + (x.rows.filter (fun r => r.Online)).length }, none) := by
  obtain ⟨pre', hsw, hloop⟩ := updateLoop_walk env [] x.rows [] x (by simp) hnd hok
  refine ⟨pre', hsw, ?_⟩
  simp only [List.append_nil, List.nil_append] at hloop
  rw [hloop, updateLoop]

/-! ## Reconciliation -/

/-- C1: when `NodeUpdateOnlineStatus` returns without error, the table holds the
same records as before, in the same number, every one with `Online == false`.
Row by row only `Online` and possibly `Updated` differ: a record that was
offline is stored as it was, one that was online is the old record with
`Online` cleared and a new `Updated` stamp, so `Id`, `NodeId`, `Name`,
`EnvdbVersion`, `Ip`, `Hostname`, `Os`, `OsQuery`, `OsQueryVersion`,
`OsQueryConfigPath`, `PendingDelete` and `Created` are unchanged.  A following
`AllNodes` that succeeds returns exactly these records. -/
theorem reconcile_sets_all_offline (env : Backend) (x : Engine) (hwf : x.WF)
    (h : (NodeUpdateOnlineStatus env x).2 = none) :
    (NodeUpdateOnlineStatus env x).1.rows.length = x.rows.length ∧
    (∀ r ∈ (NodeUpdateOnlineStatus env x).1.rows, r.Online = false) ∧
    List.Forall₂
      (fun a b : NodeDb =>
        Swept a b ∧ b = { a with Online := false, Updated := b.Updated } ∧
        b.Id = a.Id ∧ b.NodeId = a.NodeId ∧ b.Name = a.Name ∧
        b.EnvdbVersion = a.EnvdbVersion ∧ b.Ip = a.Ip ∧ b.Hostname = a.Hostname ∧
        b.Os = a.Os ∧ b.OsQuery = a.OsQuery ∧ b.OsQueryVersion = a.OsQueryVersion ∧
        b.OsQueryConfigPath = a.OsQueryConfigPath ∧ b.PendingDelete = a.PendingDelete ∧
        b.Created = a.Created)
      x.rows (NodeUpdateOnlineStatus env x).1.rows ∧
    (∀ env' : Backend, (AllNodes env' (NodeUpdateOnlineStatus env x).1).2 = none →
      (AllNodes env' (NodeUpdateOnlineStatus env x).1).1
        = (NodeUpdateOnlineStatus env x).1.rows) := by
  have hrun : NodeUpdateOnlineStatus env x = updateLoop env x.rows x := by
    unfold NodeUpdateOnlineStatus AllNodes at h ⊢
    cases hf : env.findErr x.sessions with
    | none => rfl
    | some c => rw [hf] at h; simp at h
  rw [hrun] at h ⊢
  obtain ⟨rows', hsw, hloop⟩ := updateLoop_all env x hwf.1 (updateLoop_none env x.rows x h)
  rw [hloop]
  refine ⟨hsw.length_eq.symm, swept_all_offline hsw,
    hsw.imp (fun a b hab => Swept.frame hab), ?_⟩
  intro env' hno
  unfold AllNodes at hno ⊢
  revert hno
  cases env'.findErr (x.sessions + (x.rows.filter (fun r => r.Online)).length) <;> simp

/-- Witness for C1: three records, the first and the third online, on a healthy
backend; the stored rows after the run relate to the old ones as stated. -/
theorem reconcile_sets_all_offline_witness :
    (NodeUpdateOnlineStatus (okBackend 9)
        ⟨[{ Id := 1, NodeId := "n1", Online := true, Created := 5 },
          { Id := 2, NodeId := "n2", Created := 6 },
          { Id := 3, NodeId := "n3", Online := true, Created := 7 }], 4, 0⟩).1.rows.length = 3 ∧
    (∀ r ∈ (NodeUpdateOnlineStatus (okBackend 9)
        ⟨[{ Id := 1, NodeId := "n1", Online := true, Created := 5 },
          { Id := 2, NodeId := "n2", Created := 6 },
          { Id := 3, NodeId := "n3", Online := true, Created := 7 }], 4, 0⟩).1.rows,
      r.Online = false) :=
  ⟨(reconcile_sets_all_offline (okBackend 9)
      ⟨[{ Id := 1, NodeId := "n1", Online := true, Created := 5 },
        { Id := 2, NodeId := "n2", Created := 6 },
        { Id := 3, NodeId := "n3", Online := true, Created := 7 }], 4, 0⟩
      (by decide) (by decide)).1,
   (reconcile_sets_all_offline (okBackend 9)
      ⟨[{ Id := 1, NodeId := "n1", Online := true, Created := 5 },
        { Id := 2, NodeId := "n2", Created := 6 },
        { Id := 3, NodeId := "n3", Online := true, Created := 7 }], 4, 0⟩
      (by decide) (by decide)).2.1⟩

/-- C9: `NodeUpdateOnlineStatus` stops at the first error.  If `AllNodes` fails,
that error is returned and the engine is untouched.  If the scan succeeds and
the `Update` of the online record `r` is the first to fail, that error is
returned; the records before `r` are stored swept (the online ones with
`Online == false`), `r` and everything after it are stored unchanged, and the
sessions opened are those of the online records up to `r`, none after. -/
theorem reconcile_stops_at_first_error (env : Backend) (x : Engine) (hwf : x.WF) :
    (∀ c, env.findErr x.sessions = some c →
      NodeUpdateOnlineStatus env x = (x, some (GoError.backend c))) ∧
    (∀ (pre post : List NodeDb) (r : NodeDb) (c : Nat),
      x.rows = pre ++ r :: post → r.Online = true →
      env.findErr x.sessions = none →
      (∀ j, j < (pre.filter (fun n => n.Online)).length →
        (env.session (x.sessions + j)).failure = none) →
      (env.session (x.sessions + (pre.filter (fun n => n.Online)).length)).failure = some c →
      ∃ pre', List.Forall₂ Swept pre pre' ∧
        NodeUpdateOnlineStatus env x
          = ({ rows := pre' ++ r :: post, nextId := x.nextId,
               sessions := x.sessions + (pre.filter (fun n => n.Online)).length + 1 },
             some (GoError.backend c))) := by
  constructor
  · intro c hc
    unfold NodeUpdateOnlineStatus AllNodes
    rw [hc]
  · intro pre post r c hrows hon hfind hok hfail
    have hrun : NodeUpdateOnlineStatus env x = updateLoop env x.rows x := by
      unfold NodeUpdateOnlineStatus AllNodes
      rw [hfind]
    obtain ⟨pre', hsw, hloop⟩ :=
      updateLoop_walk env (r :: post) pre [] x (by simpa using hrows) hwf.1 hok
    refine ⟨pre', hsw, ?_⟩
    rw [hrun, hrows, hloop, updateLoop]
    simp only [hon, if_true, List.nil_append]
    rw [Update_fail env _ _ c (by simpa using hfail)]

/-- Witness for C9: `n1` and `n3` online; the second session, the `Update` of
`n3`, fails. -/
theorem reconcile_stops_at_first_error_witness :
    ∃ pre', List.Forall₂ Swept
        [{ Id := 1, NodeId := "n1", Online := true }, { Id := 2, NodeId := "n2" }] pre' ∧
      NodeUpdateOnlineStatus (failAt 1 7 9)
          ⟨[{ Id := 1, NodeId := "n1", Online := true }, { Id := 2, NodeId := "n2" },
            { Id := 3, NodeId := "n3", Online := true },
            { Id := 4, NodeId := "n4", Online := true }], 5, 0⟩
        = ({ rows := pre' ++ { Id := 3, NodeId := "n3", Online := true }
                :: [{ Id := 4, NodeId := "n4", Online := true }],
             nextId := 5, sessions := 0 + 1 + 1 }, some (GoError.backend 7)) :=
  (reconcile_stops_at_first_error (failAt 1 7 9)
    ⟨[{ Id := 1, NodeId := "n1", Online := true }, { Id := 2, NodeId := "n2" },
      { Id := 3, NodeId := "n3", Online := true },
      { Id := 4, NodeId := "n4", Online := true }], 5, 0⟩ (by decide)).2
    [{ Id := 1, NodeId := "n1", Online := true }, { Id := 2, NodeId := "n2" }]
    [{ Id := 4, NodeId := "n4", Online := true }]
    { Id := 3, NodeId := "n3", Online := true } 7 rfl rfl rfl
    (by decide) (by decide)

/-- C10: on a backend that never fails, `NodeUpdateOnlineStatus` succeeds, and
running it again right away returns without error and hands back the very
engine state the first run left: the same rows, and the same count of opened
sessions, so the second run has called `Update` on no record. -/
theorem reconcile_idempotent (env : Backend) (x : Engine) (hwf : x.WF)
    (henv : env.NonFailing) :
    (NodeUpdateOnlineStatus env x).2 = none ∧
    NodeUpdateOnlineStatus env (NodeUpdateOnlineStatus env x).1
      = ((NodeUpdateOnlineStatus env x).1, none) := by
  have hrun : ∀ y : Engine, NodeUpdateOnlineStatus env y = updateLoop env y.rows y := by
    intro y
    unfold NodeUpdateOnlineStatus AllNodes
    rw [henv.2.1]
  obtain ⟨rows', hsw, hloop⟩ := updateLoop_all env x hwf.1 (fun j _ => henv.1 _)
  rw [hrun x, hloop]
  refine ⟨rfl, ?_⟩
  rw [hrun]
  exact updateLoop_offline env rows' _
    (swept_all_offline hsw)

/-- Witness for C10: the three-record table on a healthy backend. -/
theorem reconcile_idempotent_witness :
    NodeUpdateOnlineStatus (okBackend 9)
        (NodeUpdateOnlineStatus (okBackend 9)
          ⟨[{ Id := 1, NodeId := "n1", Online := true }, { Id := 2, NodeId := "n2" },
            { Id := 3, NodeId := "n3", Online := true }], 4, 0⟩).1
      = ((NodeUpdateOnlineStatus (okBackend 9)
          ⟨[{ Id := 1, NodeId := "n1", Online := true }, { Id := 2, NodeId := "n2" },
            { Id := 3, NodeId := "n3", Online := true }], 4, 0⟩).1, none) :=
  (reconcile_idempotent (okBackend 9)
    ⟨[{ Id := 1, NodeId := "n1", Online := true }, { Id := 2, NodeId := "n2" },
      { Id := 3, NodeId := "n3", Online := true }], 4, 0⟩ (by decide)
    (okBackend_nonFailing 9)).2

/-! ## Lookup -/

theorem beanCond_nodeId (nodeId : String) (r : NodeDb) :
    beanCond { NodeId := nodeId } r = (nodeId == "" || r.NodeId == nodeId) := by
  simp [beanCond]

theorem GetNodeByNodeId_eq (env : Backend) (nodeId : String) (x : Engine) :
    GetNodeByNodeId env nodeId x =
      match env.getErr x.sessions with
      | some c => (none, some (GoError.backend c))
      | none =>
        match x.rows.find? (fun r => nodeId == "" || r.NodeId == nodeId) with
        | some r => (some r, none)
        | none => (none, some (GoError.text "Node not found")) := by
  unfold GetNodeByNodeId Get
  have hc : beanCond { NodeId := nodeId } = fun r => (nodeId == "" || r.NodeId == nodeId) :=
    funext (beanCond_nodeId nodeId)
  rw [hc]
  cases env.getErr x.sessions with
  | some c => rfl
  | none =>
    simp only
    cases x.rows.find? (fun r => nodeId == "" || r.NodeId == nodeId) <;> rfl

/-! ## One `NodeUpdateOrCreate` call -/

/-- The branch taken when the lookup hands back a record. -/
theorem upsert_found (env : Backend) (a : NodeData) (x : Engine) (r : NodeDb)
    (d t : List NodeDb) (hnd : (x.rows.map (fun n => n.Id)).Nodup)
    (hrows : x.rows = d ++ r :: t)
    (hget : (GetNodeByNodeId env a.Id { x with sessions := x.sessions + 1 }).1 = some r)
    (hb : (env.session x.sessions).beginErr = none) :
    NodeUpdateOrCreate env a x =
      match (env.session x.sessions).execErr with
      | some c => ({ x with sessions := x.sessions + 1 }, some (overwrite r a r.Updated),
          some (GoError.backend c))
      | none =>
        match (env.session x.sessions).commitErr with
        | some c => ({ x with sessions := x.sessions + 1 }, none, some (GoError.backend c))
        | none =>
          ({ rows := d ++ overwrite r a (env.session x.sessions).now :: t,
             nextId := x.nextId, sessions := x.sessions + 1 },
            some (overwrite r a (env.session x.sessions).now), none) := by
  unfold NodeUpdateOrCreate
  simp only [hb]
  cases hg : GetNodeByNodeId env a.Id { x with sessions := x.sessions + 1 } with
  | mk o e =>
    rw [hg] at hget
    simp only at hget
    subst hget
    simp only
    cases (env.session x.sessions).execErr with
    | some c => rfl
    | none =>
      cases (env.session x.sessions).commitErr with
      | some c => rfl
      | none =>
        simp only
        have hmid := execUpdate_mid d t r
          { r with
            Name := a.Name
            EnvdbVersion := a.EnvdbVersion
            Ip := a.Ip
            Hostname := a.Hostname
            Os := a.Os
            OsQuery := a.OsQuery
            OsQueryVersion := a.OsQueryVersion
            OsQueryConfigPath := a.OsQueryConfigPath
            Online := a.Online
            PendingDelete := a.PendingDelete }
          (env.session x.sessions).now (by rw [← hrows]; exact hnd)
        rw [← hrows] at hmid
        rw [hmid]
        rfl

/-- The branch taken when the lookup hands back no record, whatever error came
with it. -/
theorem upsert_missing (env : Backend) (a : NodeData) (x : Engine)
    (hget : (GetNodeByNodeId env a.Id { x with sessions := x.sessions + 1 }).1 = none)
    (hb : (env.session x.sessions).beginErr = none) :
    NodeUpdateOrCreate env a x =
      match (env.session x.sessions).execErr with
      | some c => ({ x with sessions := x.sessions + 1 }, none, some (GoError.backend c))
      | none =>
        match (env.session x.sessions).commitErr with
        | some c => ({ x with sessions := x.sessions + 1 }, none, some (GoError.backend c))
        | none =>
          ({ rows := x.rows ++ [created a x.nextId (env.session x.sessions).now],
             nextId := x.nextId + 1, sessions := x.sessions + 1 },
            some (created a x.nextId (env.session x.sessions).now), none) := by
  unfold NodeUpdateOrCreate
  simp only [hb]
  cases hg : GetNodeByNodeId env a.Id { x with sessions := x.sessions + 1 } with
  | mk o e =>
    rw [hg] at hget
    simp only at hget
    subst hget
    simp only
    cases (env.session x.sessions).execErr with
    | some c => rfl
    | none =>
      cases (env.session x.sessions).commitErr with
      | some c => rfl
      | none => rfl

/-- A call that returns no error has seen its session succeed. -/
theorem upsert_none (env : Backend) (a : NodeData) (x : Engine)
    (h : (NodeUpdateOrCreate env a x).2.2 = none) :
    (env.session x.sessions).beginErr = none ∧ (env.session x.sessions).execErr = none ∧
      (env.session x.sessions).commitErr = none := by
  unfold NodeUpdateOrCreate at h
  dsimp only at h
  revert h
  cases GetNodeByNodeId env a.Id { x with sessions := x.sessions + 1 } with
  | mk o e =>
    cases env.session x.sessions with
    | mk sb se sc t =>
      cases o <;> cases sb <;> cases se <;> cases sc <;> simp

/-- For a non-empty identity the lookup is an exact match: on a lookup that
does not fail it returns a stored record with that `NodeId`, or no record and
the not-found error when no stored record has it. -/
theorem GetNodeByNodeId_exact (env : Backend) (nodeId : String) (x : Engine)
    (hne : nodeId ≠ "") (hget : env.getErr x.sessions = none) :
    (∃ r, GetNodeByNodeId env nodeId x = (some r, none) ∧ r ∈ x.rows ∧ r.NodeId = nodeId ∧
        x.rows.find? (fun n => n.NodeId == nodeId) = some r) ∨
    (GetNodeByNodeId env nodeId x = (none, some (GoError.text "Node not found")) ∧
      ∀ r ∈ x.rows, r.NodeId ≠ nodeId) := by
  rw [GetNodeByNodeId_eq, hget]
  have hp : (fun r : NodeDb => (nodeId == "" || r.NodeId == nodeId))
      = fun r : NodeDb => r.NodeId == nodeId := by
    funext r
    simp [hne]
  rw [hp]
  cases hf : x.rows.find? (fun r => r.NodeId == nodeId) with
  | some r =>
    left
    refine ⟨r, rfl, List.mem_of_find?_eq_some hf, ?_, rfl⟩
    simpa using List.find?_some hf
  | none =>
    right
    refine ⟨rfl, ?_⟩
    intro r hr
    have := List.find?_eq_none.mp hf r hr
    simpa using this

theorem recordsOf_split (d t : List NodeDb) (r : NodeDb) (nextId : Int) (k : Nat)
    (nodeId : String) :
    recordsOf { rows := d ++ r :: t, nextId := nextId, sessions := k } nodeId
      = d.filter (fun n => n.NodeId == nodeId)
          ++ ((if r.NodeId = nodeId then [r] else [])
            ++ t.filter (fun n => n.NodeId == nodeId)) := by
  unfold recordsOf
  by_cases h : r.NodeId = nodeId <;> simp [List.filter_cons, h]

/-- One upsert for a non-empty identity whose lookup does not fail and which
returns no error: the key invariant is kept, and the records of that identity
become the single overwritten record, or the single created one when there was
none. -/
theorem upsert_healthy (env : Backend) (a : NodeData) (x : Engine) (hwf : x.WF)
    (hne : a.Id ≠ "") (huniq : (recordsOf x a.Id).length ≤ 1)
    (hg : env.getErr (x.sessions + 1) = none)
    (h : (NodeUpdateOrCreate env a x).2.2 = none) :
    (NodeUpdateOrCreate env a x).1.WF ∧
    (NodeUpdateOrCreate env a x).1.sessions = x.sessions + 1 ∧
    ((recordsOf x a.Id = [] ∧
        recordsOf (NodeUpdateOrCreate env a x).1 a.Id
          = [created a x.nextId (env.session x.sessions).now]) ∨
      (∃ r, recordsOf x a.Id = [r] ∧
        recordsOf (NodeUpdateOrCreate env a x).1 a.Id
          = [overwrite r a (env.session x.sessions).now])) := by
  obtain ⟨hb, he, hc⟩ := upsert_none env a x h
  rcases GetNodeByNodeId_exact env a.Id { x with sessions := x.sessions + 1 } hne hg with
    ⟨r, hget, hmem, hid, _⟩ | ⟨hget, hnone⟩
  · obtain ⟨d, t, hrows⟩ := List.append_of_mem hmem
    have hrows' : x.rows = d ++ r :: t := hrows
    have hres := upsert_found env a x r d t hwf.1 hrows' (by rw [hget]) hb
    simp only [he, hc] at hres
    rw [hres]
    have hx : x = { rows := d ++ r :: t, nextId := x.nextId, sessions := x.sessions } := by
      cases x; simp only at hrows'; rw [hrows']
    have hold := recordsOf_split d t r x.nextId x.sessions a.Id
    rw [← hx] at hold
    rw [hold] at huniq
    simp only [hid, if_true, List.length_append, List.length_cons, List.length_nil] at huniq
    have hd : d.filter (fun n => n.NodeId == a.Id) = [] :=
      List.length_eq_zero.mp (by omega)
    have ht : t.filter (fun n => n.NodeId == a.Id) = [] :=
      List.length_eq_zero.mp (by omega)
    refine ⟨⟨?_, ?_⟩, rfl, Or.inr ⟨r, ?_, ?_⟩⟩
    · have hids : (d ++ overwrite r a (env.session x.sessions).now :: t).map (fun n => n.Id)
          = x.rows.map (fun n => n.Id) := by
        rw [hrows']; simp [overwrite]
      show ((d ++ overwrite r a (env.session x.sessions).now :: t).map (fun n => n.Id)).Nodup
      rw [hids]; exact hwf.1
    · intro n hn
      have hn' : n ∈ d ++ overwrite r a (env.session x.sessions).now :: t := hn
      rcases List.mem_append.mp hn' with hn' | hn'
      · exact hwf.2 n (by rw [hrows']; exact List.mem_append_left _ hn')
      · rcases List.mem_cons.mp hn' with rfl | hn'
        · exact hwf.2 r hmem
        · exact hwf.2 n (by
            rw [hrows']
            exact List.mem_append_right _ (List.mem_cons_of_mem _ hn'))
    · rw [hold, hd, ht]; simp [hid]
    · rw [recordsOf_split, hd, ht]
      have : (overwrite r a (env.session x.sessions).now).NodeId = a.Id := hid
      simp [this]
  · have hres := upsert_missing env a x (by rw [hget]) hb
    simp only [he, hc] at hres
    rw [hres]
    have hold : recordsOf x a.Id = [] := by
      unfold recordsOf
      apply List.filter_eq_nil_iff.mpr
      intro n hn
      simpa using hnone n hn
    refine ⟨⟨?_, ?_⟩, rfl, Or.inl ⟨hold, ?_⟩⟩
    · show ((x.rows ++ [created a x.nextId (env.session x.sessions).now]).map
          (fun n => n.Id)).Nodup
      rw [List.map_append, List.nodup_append]
      refine ⟨hwf.1, by simp, ?_⟩
      intro i hi hi'
      obtain ⟨n, hn, rfl⟩ := List.mem_map.mp hi
      have hlt := hwf.2 n hn
      have heq : n.Id = x.nextId := by simpa [created] using hi'
      omega
    · intro n hn
      have hn' : n ∈ x.rows ++ [created a x.nextId (env.session x.sessions).now] := hn
      show n.Id < x.nextId + 1
      rcases List.mem_append.mp hn' with hn' | hn'
      · have := hwf.2 n hn'; omega
      · have : n = created a x.nextId (env.session x.sessions).now := by simpa using hn'
        rw [this]; simp [created]
    · have hrec : recordsOf
          { rows := x.rows ++ [created a x.nextId (env.session x.sessions).now],
            nextId := x.nextId + 1, sessions := x.sessions + 1 } a.Id
          = recordsOf x a.Id ++ [created a x.nextId (env.session x.sessions).now] := by
        unfold recordsOf
        simp [List.filter_append, List.filter_cons, created]
      rw [hrec, hold]; rfl

/-! ## Failure paths -/

/-- C7: if the statement of the session fails, `NodeDb.Update` returns that
error, and so does `NodeUpdateOrCreate` when its lookup had handed back a
record; in both cases the stored rows are those from before the call, and a
later lookup that itself does not fail answers as it would have before. -/
theorem rollback_on_update_failure (env : Backend) (x : Engine) (c : Nat)
    (hb : (env.session x.sessions).beginErr = none)
    (he : (env.session x.sessions).execErr = some c) :
    (∀ n : NodeDb,
      (NodeDb.Update env n x).2 = some (GoError.backend c) ∧
      (NodeDb.Update env n x).1.rows = x.rows ∧
      ∀ (env' : Backend) (nodeId : String), (∀ k, env'.getErr k = none) →
        GetNodeByNodeId env' nodeId (NodeDb.Update env n x).1
          = GetNodeByNodeId env' nodeId x) ∧
    (∀ (a : NodeData) (r : NodeDb),
      (GetNodeByNodeId env a.Id { x with sessions := x.sessions + 1 }).1 = some r →
      (NodeUpdateOrCreate env a x).2.2 = some (GoError.backend c) ∧
      (NodeUpdateOrCreate env a x).1.rows = x.rows ∧
      ∀ (env' : Backend) (nodeId : String), (∀ k, env'.getErr k = none) →
        GetNodeByNodeId env' nodeId (NodeUpdateOrCreate env a x).1
          = GetNodeByNodeId env' nodeId x) := by
  constructor
  · intro n
    have hu : NodeDb.Update env n x
        = ({ x with sessions := x.sessions + 1 }, some (GoError.backend c)) := by
      unfold NodeDb.Update
      simp only [hb, he]
    rw [hu]
    refine ⟨rfl, rfl, ?_⟩
    intro env' nodeId hok
    rw [GetNodeByNodeId_eq, GetNodeByNodeId_eq, hok, hok]
  · intro a r hget
    have hu : NodeUpdateOrCreate env a x
        = ({ x with sessions := x.sessions + 1 }, some (overwrite r a r.Updated),
            some (GoError.backend c)) := by
      unfold NodeUpdateOrCreate
      simp only [hb, he]
      cases hg : GetNodeByNodeId env a.Id { x with sessions := x.sessions + 1 } with
      | mk o e =>
        rw [hg] at hget
        simp only at hget
        subst hget
        rfl
    rw [hu]
    refine ⟨rfl, rfl, ?_⟩
    intro env' nodeId hok
    rw [GetNodeByNodeId_eq, GetNodeByNodeId_eq, hok, hok]

/-- Witness for C7: one stored record, and a backend whose first session fails
at its statement. -/
theorem rollback_on_update_failure_witness :
    (NodeUpdateOrCreate (failAt 0 7 9) { Id := "n1", Name := "renamed" }
        ⟨[{ Id := 1, NodeId := "n1", Name := "agent1" }], 2, 0⟩).2.2
      = some (GoError.backend 7) ∧
    (NodeUpdateOrCreate (failAt 0 7 9) { Id := "n1", Name := "renamed" }
        ⟨[{ Id := 1, NodeId := "n1", Name := "agent1" }], 2, 0⟩).1.rows
      = [{ Id := 1, NodeId := "n1", Name := "agent1" }] :=
  ⟨((rollback_on_update_failure (failAt 0 7 9)
      ⟨[{ Id := 1, NodeId := "n1", Name := "agent1" }], 2, 0⟩ 7 rfl rfl).2
      { Id := "n1", Name := "renamed" } { Id := 1, NodeId := "n1", Name := "agent1" }
      (by decide)).1,
   ((rollback_on_update_failure (failAt 0 7 9)
      ⟨[{ Id := 1, NodeId := "n1", Name := "agent1" }], 2, 0⟩ 7 rfl rfl).2
      { Id := "n1", Name := "renamed" } { Id := 1, NodeId := "n1", Name := "agent1" }
      (by decide)).2.1⟩

/-! ## Where the code departs from the specification -/

/-- C6: with the empty string as identity the lookup is not an exact match.  The
bean `&NodeDb{NodeId: ""}` carries no non-zero field, so `x.Get` puts no
condition and hands back the first row: here the record of node `n1`, with no
error. -/
theorem lookup_empty_id_returns_other_record :
    GetNodeByNodeId (okBackend 9) ""
        ⟨[{ Id := 1, NodeId := "n1", Name := "agent1" }], 2, 0⟩
      = (some { Id := 1, NodeId := "n1", Name := "agent1" }, none) := by
  decide

/-- C8: a lookup that fails with a backend error does not abort the upsert.
Node `n1` is stored, `x.Get` fails with code 3, and the call inserts a second
record for `n1` and returns it with no error. -/
theorem upsert_inserts_after_lookup_failure :
    NodeUpdateOrCreate (lookupDownAt 1 3 9) { Id := "n1", Name := "agent1" }
        ⟨[{ Id := 1, NodeId := "n1", Name := "agent1" }], 2, 0⟩
      = (⟨[{ Id := 1, NodeId := "n1", Name := "agent1" },
           { Id := 2, NodeId := "n1", Name := "agent1", Created := 9, Updated := 9 }], 3, 1⟩,
         some { Id := 2, NodeId := "n1", Name := "agent1", Created := 9, Updated := 9 },
         none) := by
  decide

/-- C2: an announcement for the stored node `n2` whose lookup fails with a
backend error returns without error, yet the table has grown from two records
to three and the record of `n2` has not been overwritten. -/
theorem upsert_existing_grows_after_lookup_failure :
    (NodeUpdateOrCreate (lookupDownAt 1 3 9) { Id := "n2", Name := "renamed", Online := true }
        ⟨[{ Id := 1, NodeId := "n1" }, { Id := 2, NodeId := "n2", Name := "agent2" }],
          3, 0⟩).2.2 = none ∧
    (NodeUpdateOrCreate (lookupDownAt 1 3 9) { Id := "n2", Name := "renamed", Online := true }
        ⟨[{ Id := 1, NodeId := "n1" }, { Id := 2, NodeId := "n2", Name := "agent2" }],
          3, 0⟩).1.rows
      = [{ Id := 1, NodeId := "n1" }, { Id := 2, NodeId := "n2", Name := "agent2" },
         { Id := 3, NodeId := "n2", Name := "renamed", Online := true,
           Created := 9, Updated := 9 }] := by
  decide

/-- C3: an announcement with the empty identity, which no stored record
carries, adds no record: the lookup hands back the first row, and the call
overwrites the record of node `n1` and returns it. -/
theorem upsert_empty_id_overwrites_other_record :
    NodeUpdateOrCreate (okBackend 9) { Id := "", Name := "ghost", Online := true }
        ⟨[{ Id := 1, NodeId := "n1", Name := "agent1" }], 2, 0⟩
      = (⟨[{ Id := 1, NodeId := "n1", Name := "ghost", Online := true, Updated := 9 }], 2, 1⟩,
         some { Id := 1, NodeId := "n1", Name := "ghost", Online := true, Updated := 9 },
         none) := by
  decide

/-- C4: starting from the empty store, two upserts for node `n1`, the second
with a lookup that fails with a backend error, leave two records with that
`NodeId`. -/
theorem upsert_sequence_duplicates_nodeId :
    recordsOf
        (upsertAll (lookupDownAt 2 3 9)
          [{ Id := "n1", Name := "agent1" }, { Id := "n1", Name := "agent1b" }] ⟨[], 1, 0⟩)
        "n1"
      = [{ Id := 1, NodeId := "n1", Name := "agent1", Created := 9, Updated := 9 },
         { Id := 2, NodeId := "n1", Name := "agent1b", Created := 9, Updated := 9 }] := by
  decide

theorem overwrite_carries (r : NodeDb) (a : NodeData) (t : Nat) (h : r.NodeId = a.Id) :
    carries (overwrite r a t) a :=
  ⟨h, rfl, rfl, rfl, rfl, rfl, rfl, rfl, rfl, rfl⟩

theorem created_carries (a : NodeData) (id : Int) (t : Nat) : carries (created a id t) a :=
  ⟨rfl, rfl, rfl, rfl, rfl, rfl, rfl, rfl, rfl, rfl⟩

theorem recordsOf_nodeId {x : Engine} {nodeId : String} {r : NodeDb}
    (h : r ∈ recordsOf x nodeId) : r.NodeId = nodeId := by
  unfold recordsOf at h
  simpa using (List.mem_filter.mp h).2

/-- C5, the counterexample: on the empty store, the first upsert of an
announcement with `PendingDelete == true` returns without error and stores a
single record for the node whose `PendingDelete` is false, not the announced
value. -/
theorem upsert_first_call_drops_pendingDelete :
    (NodeUpdateOrCreate (okBackend 9) { Id := "n1", Name := "agent1", PendingDelete := true }
        ⟨[], 1, 0⟩).2.2 = none ∧
    recordsOf
        (NodeUpdateOrCreate (okBackend 9)
          { Id := "n1", Name := "agent1", PendingDelete := true } ⟨[], 1, 0⟩).1 "n1"
      = [{ Id := 1, NodeId := "n1", Name := "agent1", PendingDelete := false,
           Created := 9, Updated := 9 }] ∧
    ¬ (∀ r ∈ recordsOf
          (NodeUpdateOrCreate (okBackend 9)
            { Id := "n1", Name := "agent1", PendingDelete := true } ⟨[], 1, 0⟩).1 "n1",
        r.PendingDelete = true) := by
  decide

/-- C5, as amended: for an announcement `a` with a non-empty identity, on a store
with a unique key holding at most one record of that identity, two upserts in
a row that return without error and whose lookups do not fail leave, after each
call, exactly one record of that identity.  After both calls it shows `a`'s
name, version, ip, hostname, os, online flag and query-engine fields, and its
`Id` is the same after both.  Its `PendingDelete` equals `a`'s after the second
call; after the first call it equals `a`'s when the node was already stored,
and is false when that call created the record. -/
theorem upsert_twice (env : Backend) (a : NodeData) (x : Engine) (hwf : x.WF)
    (hne : a.Id ≠ "") (huniq : (recordsOf x a.Id).length ≤ 1)
    (hg1 : env.getErr (x.sessions + 1) = none) (hg2 : env.getErr (x.sessions + 2) = none)
    (h1 : (NodeUpdateOrCreate env a x).2.2 = none)
    (h2 : (NodeUpdateOrCreate env a (NodeUpdateOrCreate env a x).1).2.2 = none) :
    ∃ r1 r2 : NodeDb,
      recordsOf (NodeUpdateOrCreate env a x).1 a.Id = [r1] ∧
      recordsOf (NodeUpdateOrCreate env a (NodeUpdateOrCreate env a x).1).1 a.Id = [r2] ∧
      r2.Id = r1.Id ∧ carries r1 a ∧ carries r2 a ∧
      r2.PendingDelete = a.PendingDelete ∧
      (recordsOf x a.Id = [] → r1.PendingDelete = false) ∧
      (recordsOf x a.Id ≠ [] → r1.PendingDelete = a.PendingDelete) := by
  obtain ⟨hwf1, hs1, hfirst⟩ := upsert_healthy env a x hwf hne huniq hg1 h1
  have hlen1 : (recordsOf (NodeUpdateOrCreate env a x).1 a.Id).length ≤ 1 := by
    rcases hfirst with ⟨_, h⟩ | ⟨_, _, h⟩ <;> rw [h] <;> simp
  have hg2' : env.getErr ((NodeUpdateOrCreate env a x).1.sessions + 1) = none := by
    rw [hs1]; exact hg2
  obtain ⟨_, _, hsecond⟩ :=
    upsert_healthy env a (NodeUpdateOrCreate env a x).1 hwf1 hne hlen1 hg2' h2
  have hsecond' : ∃ r, recordsOf (NodeUpdateOrCreate env a x).1 a.Id = [r] ∧
      recordsOf (NodeUpdateOrCreate env a (NodeUpdateOrCreate env a x).1).1 a.Id
        = [overwrite r a (env.session (NodeUpdateOrCreate env a x).1.sessions).now] := by
    rcases hsecond with ⟨hnil, _⟩ | h
    · rcases hfirst with ⟨_, h⟩ | ⟨_, _, h⟩ <;> rw [h] at hnil <;> simp at hnil
    · exact h
  obtain ⟨r1, hr1, hr2⟩ := hsecond'
  have hid1 : r1.NodeId = a.Id := recordsOf_nodeId (by rw [hr1]; simp)
  refine ⟨r1, _, hr1, hr2, rfl, ?_, overwrite_carries r1 a _ hid1, rfl, ?_, ?_⟩
  · rcases hfirst with ⟨_, h⟩ | ⟨r, hr, h⟩
    · rw [hr1] at h
      have : r1 = created a x.nextId (env.session x.sessions).now := by simpa using h
      rw [this]; exact created_carries a _ _
    · rw [hr1] at h
      have : r1 = overwrite r a (env.session x.sessions).now := by simpa using h
      rw [this]
      exact overwrite_carries r a _ (recordsOf_nodeId (by rw [hr]; simp))
  · intro hnil
    rcases hfirst with ⟨_, h⟩ | ⟨r, hr, _⟩
    · rw [hr1] at h
      have : r1 = created a x.nextId (env.session x.sessions).now := by simpa using h
      rw [this]; rfl
    · rw [hr] at hnil; simp at hnil
  · intro hsome
    rcases hfirst with ⟨hnil, _⟩ | ⟨r, _, h⟩
    · exact absurd hnil hsome
    · rw [hr1] at h
      have : r1 = overwrite r a (env.session x.sessions).now := by simpa using h
      rw [this]; rfl

/-- Witness for C5 as amended: the announcement of the counterexample, upserted
twice on the empty store and a healthy backend. -/
theorem upsert_twice_witness :
    ∃ r1 r2 : NodeDb,
      recordsOf (NodeUpdateOrCreate (okBackend 9)
          { Id := "n1", Name := "agent1", PendingDelete := true } ⟨[], 1, 0⟩).1 "n1" = [r1] ∧
      recordsOf (NodeUpdateOrCreate (okBackend 9)
          { Id := "n1", Name := "agent1", PendingDelete := true }
          (NodeUpdateOrCreate (okBackend 9)
            { Id := "n1", Name := "agent1", PendingDelete := true } ⟨[], 1, 0⟩).1).1 "n1"
        = [r2] ∧
      r2.Id = r1.Id ∧
      carries r1 { Id := "n1", Name := "agent1", PendingDelete := true } ∧
      carries r2 { Id := "n1", Name := "agent1", PendingDelete := true } ∧
      r2.PendingDelete = true ∧
      (recordsOf ⟨[], 1, 0⟩ "n1" = [] → r1.PendingDelete = false) ∧
      (recordsOf ⟨[], 1, 0⟩ "n1" ≠ [] → r1.PendingDelete = true) :=
  upsert_twice (okBackend 9) { Id := "n1", Name := "agent1", PendingDelete := true }
    ⟨[], 1, 0⟩ (by decide) (by decide) (by decide) rfl rfl (by decide) (by decide)

/-! ## The two branches, for a non-empty identity -/

/-- The found branch: when the single stored record of a non-empty identity is
`r`, a call whose lookup does not fail and which returns no error replaces `r`
in place by `r` overwritten with the announcement, keeps every other row, and
returns the stored record. -/
theorem upsert_overwrites (env : Backend) (a : NodeData) (x : Engine) (r : NodeDb)
    (hwf : x.WF) (hne : a.Id ≠ "") (hone : recordsOf x a.Id = [r])
    (hg : env.getErr (x.sessions + 1) = none)
    (h : (NodeUpdateOrCreate env a x).2.2 = none) :
    ∃ d t, x.rows = d ++ r :: t ∧
      NodeUpdateOrCreate env a x
        = ({ rows := d ++ overwrite r a (env.session x.sessions).now :: t,
             nextId := x.nextId, sessions := x.sessions + 1 },
            some (overwrite r a (env.session x.sessions).now), none) := by
  obtain ⟨hb, he, hc⟩ := upsert_none env a x h
  rcases GetNodeByNodeId_exact env a.Id { x with sessions := x.sessions + 1 } hne hg with
    ⟨r', hget, hmem, hid, _⟩ | ⟨_, hnone⟩
  · have hr' : r' ∈ recordsOf x a.Id := by
      unfold recordsOf
      exact List.mem_filter.mpr ⟨hmem, by simpa using hid⟩
    rw [hone] at hr'
    have heq : r' = r := by simpa using hr'
    subst heq
    obtain ⟨d, t, hrows⟩ := List.append_of_mem hmem
    have hres := upsert_found env a x r' d t hwf.1 hrows (by rw [hget]) hb
    simp only [he, hc] at hres
    exact ⟨d, t, hrows, hres⟩
  · have hr : r ∈ recordsOf x a.Id := by rw [hone]; simp
    unfold recordsOf at hr
    have := List.mem_filter.mp hr
    exact absurd (by simpa using this.2) (hnone r this.1)

/-- The create branch: when no stored record has the announced non-empty
identity, a call that returns no error appends one record, the announcement
with `PendingDelete` false, and a following lookup that does not fail returns
that record. -/
theorem upsert_creates (env : Backend) (a : NodeData) (x : Engine)
    (hne : a.Id ≠ "") (hnone : ∀ n ∈ x.rows, n.NodeId ≠ a.Id)
    (h : (NodeUpdateOrCreate env a x).2.2 = none) :
    NodeUpdateOrCreate env a x
      = ({ rows := x.rows ++ [created a x.nextId (env.session x.sessions).now],
           nextId := x.nextId + 1, sessions := x.sessions + 1 },
          some (created a x.nextId (env.session x.sessions).now), none) ∧
    ∀ env' : Backend, (∀ k, env'.getErr k = none) →
      GetNodeByNodeId env' a.Id (NodeUpdateOrCreate env a x).1
        = (some (created a x.nextId (env.session x.sessions).now), none) := by
  obtain ⟨hb, he, hc⟩ := upsert_none env a x h
  have hfind : x.rows.find? (fun n => a.Id == "" || n.NodeId == a.Id) = none := by
    apply List.find?_eq_none.mpr
    intro n hn
    simp [hne, hnone n hn]
  have hmiss : (GetNodeByNodeId env a.Id { x with sessions := x.sessions + 1 }).1 = none := by
    rw [GetNodeByNodeId_eq]
    cases env.getErr (x.sessions + 1) with
    | some c => rfl
    | none => simp only [hfind]
  have hres := upsert_missing env a x hmiss hb
  simp only [he, hc] at hres
  refine ⟨hres, ?_⟩
  intro env' hok
  rw [hres, GetNodeByNodeId_eq, hok]
  have hfind' : (x.rows ++ [created a x.nextId (env.session x.sessions).now]).find?
      (fun n => a.Id == "" || n.NodeId == a.Id)
        = some (created a x.nextId (env.session x.sessions).now) := by
    rw [List.find?_append, hfind]
    simp [created]
  simp only [hfind']

/-! ## Identity uniqueness while lookups are healthy -/

/-- What one upsert whose lookup does not fail can do to the table: nothing,
overwrite one stored record in place, or append a record whose identity no
stored record has. -/
theorem upsert_rows (env : Backend) (b : NodeData) (x : Engine) (hwf : x.WF)
    (hg : env.getErr (x.sessions + 1) = none) :
    (NodeUpdateOrCreate env b x).1.sessions = x.sessions + 1 ∧
    (((NodeUpdateOrCreate env b x).1.rows = x.rows ∧
        (NodeUpdateOrCreate env b x).1.nextId = x.nextId) ∨
      (∃ d r t now, x.rows = d ++ r :: t ∧
        (NodeUpdateOrCreate env b x).1.rows = d ++ overwrite r b now :: t ∧
        (NodeUpdateOrCreate env b x).1.nextId = x.nextId) ∨
      (∃ now, (∀ n ∈ x.rows, n.NodeId ≠ b.Id) ∧
        (NodeUpdateOrCreate env b x).1.rows = x.rows ++ [created b x.nextId now] ∧
        (NodeUpdateOrCreate env b x).1.nextId = x.nextId + 1)) := by
  cases hb : (env.session x.sessions).beginErr with
  | some c =>
    have : NodeUpdateOrCreate env b x
        = ({ x with sessions := x.sessions + 1 }, none, some (GoError.backend c)) := by
      unfold NodeUpdateOrCreate
      simp only [hb]
    rw [this]
    exact ⟨rfl, Or.inl ⟨rfl, rfl⟩⟩
  | none =>
    have hlook := GetNodeByNodeId_eq env b.Id { x with sessions := x.sessions + 1 }
    simp only [hg] at hlook
    cases hf : x.rows.find? (fun n => b.Id == "" || n.NodeId == b.Id) with
    | some r =>
      simp only [hf] at hlook
      obtain ⟨d, t, hrows⟩ := List.append_of_mem (List.mem_of_find?_eq_some hf)
      have hres := upsert_found env b x r d t hwf.1 hrows (by rw [hlook]) hb
      rw [hres]
      cases (env.session x.sessions).execErr with
      | some c => exact ⟨rfl, Or.inl ⟨rfl, rfl⟩⟩
      | none =>
        cases (env.session x.sessions).commitErr with
        | some c => exact ⟨rfl, Or.inl ⟨rfl, rfl⟩⟩
        | none => exact ⟨rfl, Or.inr (Or.inl ⟨d, r, t, _, hrows, rfl, rfl⟩)⟩
    | none =>
      simp only [hf] at hlook
      have hres := upsert_missing env b x (by rw [hlook]) hb
      rw [hres]
      have hno : ∀ n ∈ x.rows, n.NodeId ≠ b.Id := by
        intro n hn heq
        have := List.find?_eq_none.mp hf n hn
        simp [heq] at this
      cases (env.session x.sessions).execErr with
      | some c => exact ⟨rfl, Or.inl ⟨rfl, rfl⟩⟩
      | none =>
        cases (env.session x.sessions).commitErr with
        | some c => exact ⟨rfl, Or.inl ⟨rfl, rfl⟩⟩
        | none => exact ⟨rfl, Or.inr (Or.inr ⟨_, hno, rfl, rfl⟩)⟩

/-- One upsert whose lookup does not fail keeps the key invariant, and keeps
every identity on at most one record, whatever the announcement and whatever
else the backend does. -/
theorem upsert_keeps_unique (env : Backend) (b : NodeData) (x : Engine) (key : String)
    (hwf : x.WF) (hg : env.getErr (x.sessions + 1) = none)
    (huniq : (recordsOf x key).length ≤ 1) :
    (NodeUpdateOrCreate env b x).1.WF ∧
      (recordsOf (NodeUpdateOrCreate env b x).1 key).length ≤ 1 := by
  obtain ⟨_, hcase⟩ := upsert_rows env b x hwf hg
  rcases hcase with ⟨hr, hn⟩ | ⟨d, r, t, now, hrows, hr, hn⟩ | ⟨now, hno, hr, hn⟩
  · refine ⟨⟨by rw [hr]; exact hwf.1, fun n h => ?_⟩, ?_⟩
    · rw [hn]; exact hwf.2 n (by rw [← hr]; exact h)
    · unfold recordsOf at huniq ⊢
      rw [hr]; exact huniq
  · refine ⟨⟨?_, fun n h => ?_⟩, ?_⟩
    · rw [hr]
      have hids : (d ++ overwrite r b now :: t).map (fun n => n.Id)
          = x.rows.map (fun n => n.Id) := by
        rw [hrows]; simp [overwrite]
      rw [hids]; exact hwf.1
    · rw [hn]
      rw [hr] at h
      rcases List.mem_append.mp h with h | h
      · exact hwf.2 n (by rw [hrows]; exact List.mem_append_left _ h)
      · rcases List.mem_cons.mp h with rfl | h
        · exact hwf.2 r (by rw [hrows]; simp)
        · exact hwf.2 n (by
            rw [hrows]
            exact List.mem_append_right _ (List.mem_cons_of_mem _ h))
    · have hsame : (overwrite r b now).NodeId = r.NodeId := rfl
      unfold recordsOf at huniq ⊢
      rw [hr]
      rw [hrows] at huniq
      by_cases hk : r.NodeId = key
      · simp only [List.filter_append, List.filter_cons, hsame, hk, beq_self_eq_true,
          if_true, List.length_append, List.length_cons] at huniq ⊢
        exact huniq
      · have hk' : (r.NodeId == key) = false := by simpa using hk
        simp only [List.filter_append, List.filter_cons, hsame, hk',
          Bool.false_eq_true, if_false, List.length_append] at huniq ⊢
        exact huniq
  · refine ⟨⟨?_, fun n h => ?_⟩, ?_⟩
    · rw [hr, List.map_append, List.nodup_append]
      refine ⟨hwf.1, by simp, ?_⟩
      intro i hi hi'
      obtain ⟨n, hn', rfl⟩ := List.mem_map.mp hi
      have hlt := hwf.2 n hn'
      have heq : n.Id = x.nextId := by simpa [created] using hi'
      omega
    · rw [hn]
      rw [hr] at h
      rcases List.mem_append.mp h with h | h
      · have := hwf.2 n h; omega
      · have : n = created b x.nextId now := by simpa using h
        rw [this]; simp [created]
    · unfold recordsOf at huniq ⊢
      rw [hr]
      by_cases hk : b.Id = key
      · have hnil : x.rows.filter (fun n => n.NodeId == key) = [] := by
          apply List.filter_eq_nil_iff.mpr
          intro n hn'
          have := hno n hn'
          rw [hk] at this
          simpa using this
        simp [List.filter_append, hnil, List.filter_cons, created, hk]
      · have hk' : ((created b x.nextId now).NodeId == key) = false := by
          simpa [created] using hk
        simp only [List.filter_append, List.filter_cons, hk', Bool.false_eq_true, if_false,
          List.filter_nil, List.append_nil]
        exact huniq

/-- Identity uniqueness along any run of upserts whose lookups do not fail: an
identity held by at most one record at the start is held by at most one record
at the end. -/
theorem upsertAll_keeps_unique (env : Backend) (hget : ∀ k, env.getErr k = none)
    (key : String) :
    ∀ (as : List NodeData) (x : Engine), x.WF → (recordsOf x key).length ≤ 1 →
      (upsertAll env as x).WF ∧ (recordsOf (upsertAll env as x) key).length ≤ 1 := by
  intro as
  induction as with
  | nil => intro x hwf h; exact ⟨hwf, h⟩
  | cons a rest ih =>
    intro x hwf h
    obtain ⟨hwf', h'⟩ := upsert_keeps_unique env a x key hwf (hget _) h
    exact ih _ hwf' h'

end Envdb
